import Mathlib

set_option maxRecDepth 16000

/-!
Verification development for the All-Island Major Projects dashboard
(`streamlit_app.py`).  The core pipeline — date parsing, field
normalisation, geometry resolution, feature adaptation, collection
loading, ArcGIS URL building and project merging — is shallowly embedded
below, translated function by function from the Python source.

Modelling conventions:
* Python floats are modelled by `ℚ` (exact rationals).  The source never
  relies on binary rounding; all concrete inputs used in theorems are
  exactly representable.
* Python exceptions are modelled by `Except Unit`; a `.error ()` result
  marks a raised exception.
* JSON scalars (string / number / null) are `JVal`; full JSON values
  (for geometry objects and feature bodies) are `J`.
* Python's `str.lower` is modelled by `String.toLower` (ASCII folding);
  all classification keywords in the source are ASCII.
-/

namespace AIP

/-! ## Decimal digit rendering -/

def digitChar (d : ℕ) : Char := Char.ofNat (48 + d)

/-- Digits of `n`, most significant first, by structural fuel recursion
(the fuel argument only needs to exceed the digit count). -/
def natCharsGo : ℕ → ℕ → List Char
  | 0, _ => []
  | fuel + 1, n =>
    if n < 10 then [digitChar n]
    else natCharsGo fuel (n / 10) ++ [digitChar (n % 10)]

/-- All decimal digits of `n`, most significant first (`[0]` for `0`). -/
def natChars (n : ℕ) : List Char := natCharsGo (n + 1) n

/-- The last `w` decimal digits of `n`, most significant first, zero-padded. -/
def fixedDigits : ℕ → ℕ → List Char
  | 0, _ => []
  | w + 1, n => fixedDigits w (n / 10) ++ [digitChar (n % 10)]

/-- Numeric value of a list of decimal digit characters. -/
def digitsVal (l : List Char) : ℕ :=
  l.foldl (fun a c => 10 * a + (c.toNat - 48)) 0

/-! ## Calendar conversion

`datetime.utcfromtimestamp(ts).strftime("%Y-%m-%d")` reduces to the
civil-from-days conversion on `⌊ts / 86400⌋`: the proleptic Gregorian
date of a day count relative to 1970-01-01. -/

/-- Gregorian `(year, month, day)` of a day count since the epoch
(standard era-based civil-from-days algorithm). -/
def civilFromDays (z : ℤ) : ℤ × ℕ × ℕ :=
  let a : ℤ := z + 719468
  let era : ℤ := Int.ediv a 146097
  let doe : ℕ := (Int.emod a 146097).toNat
  let yoe : ℕ := (doe - doe / 1460 + doe / 36524 - doe / 146096) / 365
  let y : ℤ := era * 400 + yoe
  let doy : ℕ := doe - (365 * yoe + yoe / 4 - yoe / 100)
  let mp : ℕ := (5 * doy + 2) / 153
  let d : ℕ := doy - (153 * mp + 2) / 5 + 1
  let m : ℕ := if mp < 10 then mp + 3 else mp - 9
  (if m ≤ 2 then y + 1 else y, m, d)

/-- `YYYY-MM-DD` rendering, zero padded (as CPython's `strftime` produces
for the years 1000–9999 that all theorems below stay within). -/
def fmtYmd (y : ℤ) (m d : ℕ) : String :=
  ⟨fixedDigits 4 y.toNat ++ '-' :: (fixedDigits 2 m ++ '-' :: fixedDigits 2 d)⟩

/-! ## Exact rational arithmetic

The model's arithmetic is routed through `Rat.divInt` on numerators and
denominators so that every concrete computation reduces inside the
kernel; the bridge lemmas identify the wrappers with the field
operations of `ℚ`. -/

def qAdd (a b : ℚ) : ℚ := Rat.divInt (a.num * b.den + b.num * a.den) (a.den * b.den)

def qSub (a b : ℚ) : ℚ := Rat.divInt (a.num * b.den - b.num * a.den) (a.den * b.den)

def qMul (a b : ℚ) : ℚ := Rat.divInt (a.num * b.num) (a.den * b.den)

def qDiv (a b : ℚ) : ℚ := Rat.divInt (a.num * b.den) (a.den * b.num)

theorem qSub_eq (a b : ℚ) : qSub a b = a - b := by
  have ha : (a.den : ℚ) ≠ 0 := Nat.cast_ne_zero.mpr a.den_nz
  have hb : (b.den : ℚ) ≠ 0 := Nat.cast_ne_zero.mpr b.den_nz
  rw [qSub, Rat.divInt_eq_div]
  push_cast
  conv_rhs => rw [← Rat.num_div_den a, ← Rat.num_div_den b]
  field_simp
  ring

theorem qMul_eq (a b : ℚ) : qMul a b = a * b := by
  have ha : (a.den : ℚ) ≠ 0 := Nat.cast_ne_zero.mpr a.den_nz
  have hb : (b.den : ℚ) ≠ 0 := Nat.cast_ne_zero.mpr b.den_nz
  rw [qMul, Rat.divInt_eq_div]
  push_cast
  conv_rhs => rw [← Rat.num_div_den a, ← Rat.num_div_den b]
  field_simp

theorem qDiv_eq (a b : ℚ) : qDiv a b = a / b := by
  rcases eq_or_ne b 0 with rb | rb
  · subst rb
    simp [qDiv, Rat.divInt_eq_div]
  · have ha : (a.den : ℚ) ≠ 0 := Nat.cast_ne_zero.mpr a.den_nz
    have hb : (b.den : ℚ) ≠ 0 := Nat.cast_ne_zero.mpr b.den_nz
    have hbn : (b.num : ℚ) ≠ 0 := Int.cast_ne_zero.mpr (Rat.num_ne_zero.mpr rb)
    rw [qDiv, Rat.divInt_eq_div]
    push_cast
    conv_rhs => rw [← Rat.num_div_den a, ← Rat.num_div_den b]
    rw [div_div_div_eq]

/-- Floor of a rational as an integer (Euclidean division of the reduced
numerator by the positive denominator). -/
def ratFloor (q : ℚ) : ℤ := q.num / (q.den : ℤ)

theorem ratFloor_eq (q : ℚ) : ratFloor q = ⌊q⌋ := Rat.floor_def.symm

/-- `datetime.utcfromtimestamp(secs).strftime("%Y-%m-%d")`, with the
`OverflowError` CPython raises outside years 1..9999 modelled as `none`
(the caller catches it and returns `None`). -/
def pyUtcDate (secs : ℚ) : Option String :=
  let c := civilFromDays (ratFloor (qDiv secs 86400))
  if 1 ≤ c.1 ∧ c.1 ≤ 9999 then some (fmtYmd c.1 c.2.1 c.2.2) else none

/-! ## Scalar JSON values (raw property-map entries) -/

inductive JVal where
  | str : String → JVal
  | num : ℚ → JVal
  | null : JVal
deriving DecidableEq, Repr

/-- Python truthiness of a scalar: `None`, `""` and `0` are falsy. -/
def truthyJV : JVal → Bool
  | .str s => s ≠ ""
  | .num q => q ≠ 0
  | .null => false

/-! ## `parse_date` -/

/-- The strict `YYYY-MM-DD` calendar-date form accepted by both
`datetime.fromisoformat` and `strptime("%Y-%m-%d")`; the source tries the
two in sequence and this common subset is what its string branch accepts
on the inputs considered here (wider ISO forms with time components are
outside the concrete inputs of every claim). -/
def isoCanon (s : String) : Option String :=
  match s.data with
  | [a, b, c, d, '-', e, f, '-', g, h] =>
    if (a.isDigit && b.isDigit && c.isDigit && d.isDigit && e.isDigit &&
        f.isDigit && g.isDigit && h.isDigit) then
      let y : ℕ := digitsVal [a, b, c, d]
      let mo : ℕ := digitsVal [e, f]
      let da : ℕ := digitsVal [g, h]
      let maxd : ℕ :=
        if mo = 2 then
          (if (y % 4 = 0 ∧ y % 100 ≠ 0) ∨ y % 400 = 0 then 29 else 28)
        else if mo = 4 ∨ mo = 6 ∨ mo = 9 ∨ mo = 11 then 30 else 31
      if 1 ≤ y ∧ 1 ≤ mo ∧ mo ≤ 12 ∧ 1 ≤ da ∧ da ≤ maxd then some s else none
    else none
  | _ => none

/-- `parse_date` from the source.  Numeric branch:
`ms = v if v > 1e12 else (v * 1000 if v > 1e9 else v)` followed by
`utcfromtimestamp(ms / 1000)` under `try/except`. -/
def parse_date : JVal → Option String
  | .null => none
  | .num v =>
    let ms : ℚ := if v > 1000000000000 then v else
      (if v > 1000000000 then qMul v 1000 else v)
    pyUtcDate (qDiv ms 1000)
  | .str s => if s = "" then none else isoCanon s

/-- Interpreting a number as epoch milliseconds: UTC date of that instant. -/
def utcDateOfMillis (ms : ℚ) : Option String := pyUtcDate (qDiv ms 1000)

/-- Interpreting a number as epoch seconds: UTC date of that instant. -/
def utcDateOfSeconds (s : ℚ) : Option String := pyUtcDate s

instance {ε α : Type} [DecidableEq ε] [DecidableEq α] : DecidableEq (Except ε α)
  | .error e, .error f => if h : e = f then .isTrue (by rw [h]) else .isFalse (by simp [h])
  | .error _, .ok _ => .isFalse (by simp)
  | .ok _, .error _ => .isFalse (by simp)
  | .ok a, .ok b => if h : a = b then .isTrue (by rw [h]) else .isFalse (by simp [h])

/-! ## Python `float()` values and string parsing -/

/-- A CPython float as produced by the paths modelled here: a finite
value (exact rational), a signed infinity, or NaN. -/
inductive PyF where
  | fin : ℚ → PyF
  | inf : Bool → PyF
  | nan : PyF
deriving DecidableEq, Repr

/-- `abs` on ℚ, written so it evaluates by kernel reduction. -/
def qabs (q : ℚ) : ℚ := if q < 0 then -q else q

/-- The binary64 overflow boundary: a decimal value of magnitude at or
above `2^1024 - 2^970` (the midpoint above `DBL_MAX`, which rounds up)
does not fit a double.  `float(str)` saturates to `±inf` there, while
`float(int)` raises `OverflowError`. -/
def ovfBound : ℚ := Rat.divInt (Int.ofNat (2 ^ 1024 - 2 ^ 970)) 1

/-- Rounding a parsed literal into a double: overflow saturates to a
signed infinity (CPython `float(str)`); the value is otherwise kept
exact in `ℚ` rather than rounded to binary64. -/
def satPyF (neg : Bool) (v : ℚ) : PyF :=
  if ovfBound ≤ qabs v then .inf neg else .fin v

/-- The whitespace `str.strip()` / `float()` remove around tokens. -/
def isPyWs (c : Char) : Bool :=
  c = ' ' || c = '\t' || c = '\n' || c = '\r' || c = '\x0b' || c = '\x0c'

/-- Strip a character class from both ends of a character list. -/
def stripEnds (p : Char → Bool) (l : List Char) : List Char :=
  ((l.dropWhile p).reverse.dropWhile p).reverse

/-- Consume a run of decimal digits in which single underscores may sit
between digits (CPython numeric-literal rule); returns the digits seen
and the unconsumed remainder. -/
def udigitsGo : ℕ → List Char → List Char → List Char × List Char
  | 0, acc, l => (acc, l)
  | _ + 1, acc, [] => (acc, [])
  | fuel + 1, acc, c :: rest =>
    if c.isDigit then udigitsGo fuel (c :: acc) rest
    else if c = '_' then
      match rest with
      | d :: rest2 => if d.isDigit then udigitsGo fuel (d :: acc) rest2 else (acc, c :: rest)
      | [] => (acc, c :: rest)
    else (acc, c :: rest)

/-- A digit run (with embedded underscores) that must start with a digit. -/
def udigits (l : List Char) : Option (List Char × List Char) :=
  match l with
  | c :: rest =>
    if c.isDigit then
      let p := udigitsGo rest.length [c] rest
      some (p.1.reverse, p.2)
    else none
  | [] => none

/-- Mantissa of a float literal: `digits [. [digits]]` or `. digits`;
returns the mantissa digits' value, the count of fractional digits, and
the remainder. -/
def mantissa (l : List Char) : Option (ℕ × ℕ × List Char) :=
  match udigits l with
  | some (ip, r) =>
    match r with
    | '.' :: r2 =>
      (match udigits r2 with
       | some (fp, r3) => some (digitsVal (ip ++ fp), fp.length, r3)
       | none => some (digitsVal ip, 0, r2))
    | _ => some (digitsVal ip, 0, r)
  | none =>
    match l with
    | '.' :: r2 =>
      (match udigits r2 with
       | some (fp, r3) => some (digitsVal fp, fp.length, r3)
       | none => none)
    | _ => none

/-- Optional exponent `e[±]digits` of a float literal (input lowercased). -/
def expPart (l : List Char) : Option (ℤ × List Char) :=
  match l with
  | 'e' :: rest =>
    let sr : Bool × List Char :=
      match rest with
      | '+' :: t => (false, t)
      | '-' :: t => (true, t)
      | _ => (false, rest)
    (match udigits sr.2 with
     | some (ds, r2) =>
       some ((if sr.1 then -(digitsVal ds : ℤ) else (digitsVal ds : ℤ)), r2)
     | none => none)
  | _ => none

/-- `(sign) m / 10^fl * 10^e` built over `Rat.divInt`. -/
def decValue (neg : Bool) (m : ℕ) (fl : ℕ) (e : ℤ) : ℚ :=
  let base : ℚ := Rat.divInt (if neg then -(m : ℤ) else (m : ℤ)) (Int.ofNat (10 ^ fl))
  if 0 ≤ e then qMul base (Rat.divInt (Int.ofNat (10 ^ e.toNat)) 1)
  else qDiv base (Rat.divInt (Int.ofNat (10 ^ (-e).toNat)) 1)

/-- CPython `float(str)`: strip whitespace, optional sign, then either
`inf`/`infinity`/`nan` (case-insensitive) or a decimal literal with
optional fraction and exponent; `none` models `ValueError`.  Literals
whose magnitude overflows binary64 saturate to `±inf`; finite values are
kept exact in `ℚ` rather than rounded to binary64. -/
def pyFloat (s : String) : Option PyF :=
  let l := stripEnds isPyWs s.data
  let sl : Bool × List Char :=
    if l.head? = some '+' then (false, l.tail)
    else if l.head? = some '-' then (true, l.tail)
    else (false, l)
  let low := sl.2.map Char.toLower
  if low = "inf".data ∨ low = "infinity".data then some (.inf sl.1)
  else if low = "nan".data then some .nan
  else
    match mantissa low with
    | some (m, fl, r) =>
      (match expPart r with
       | some (e, r2) => if r2 = [] then some (satPyF sl.1 (decValue sl.1 m fl e)) else none
       | none => if r = [] then some (satPyF sl.1 (decValue sl.1 m fl 0)) else none)
    | none => none

/-! ## Raw property maps and the Field Normalizer -/

/-- A raw property map: arbitrary string keys to scalar JSON values (the
shape every claim quantifies over).  Python's `dict` keeps keys unique;
a duplicated key here behaves last-write-wins, as `json.loads` does. -/
abbrev RMap := List (String × JVal)

/-- `dict.get`: the value of the last binding of `k`, if any. -/
def dget (m : RMap) (k : String) : Option JVal :=
  (m.reverse.find? (fun kv => kv.1 = k)).map (fun kv => kv.2)

/-- `str.lower()` (character-wise ASCII fold, structurally recursive). -/
def strLower (s : String) : String := ⟨s.data.map Char.toLower⟩

/-- `{str(k).lower(): v for k, v in rec.items()}`. -/
def lowerKeys (rec : RMap) : RMap := rec.map (fun kv => (strLower kv.1, kv.2))

/-- `get_any`: probe keys in order, first value that is neither `None`
nor `""` wins. -/
def get_any (m : RMap) : List String → Option JVal
  | [] => none
  | k :: ks =>
    match dget m k with
    | some v => if v = .null ∨ v = .str "" then get_any m ks else some v
    | none => get_any m ks

/-- Strip trailing `'0'` characters. -/
def dropTZ (l : List Char) : List Char :=
  (l.reverse.dropWhile (fun c => c = '0')).reverse

/-- Search (by upward-counting fuel recursion) for the least decimal
width `w` with `aq * 10^w` integral; `q.den` steps always suffice for a
terminating decimal. -/
def decWidthGo : ℕ → ℕ → ℚ → ℕ
  | 0, w, _ => w
  | fuel + 1, w, aq =>
    if (qMul aq (Rat.divInt (Int.ofNat (10 ^ w)) 1)).den = 1 then w
    else decWidthGo fuel (w + 1) aq

/-- The number of decimal digits after the point of `|q|`'s exact
expansion (when it terminates). -/
def decWidth (q : ℚ) : ℕ := decWidthGo q.den 0 (qabs q)

/-- `repr()` of a CPython float, as `json.dumps`/`str()` print it, for a
value whose decimal expansion terminates: positional `digits.digits`
with trailing zeros stripped when the exponent lies in `[-4, 15]`
(i.e. `1e-4 ≤ |q| < 1e16`), and scientific `d[.ddd]e±XX` notation (the
exponent zero-padded to two digits) otherwise.  Digits are the exact
expansion — the binary64 shortest-round-trip rounding is idealized away,
as everywhere in this model. -/
def serNumL (q : ℚ) : List Char :=
  let w := decWidth q
  let a := (ratFloor (qMul (qabs q) (Rat.divInt (Int.ofNat (10 ^ w)) 1))).toNat
  let sgn : List Char := if q < 0 then ['-'] else []
  if qabs q < Rat.divInt 1 10000 ∨ Rat.divInt (10 ^ 16) 1 ≤ qabs q then
    let D := dropTZ (natChars a)
    let e : ℤ := ((natChars a).length : ℤ) - 1 - (w : ℤ)
    let eDig := natChars e.natAbs
    sgn ++ D.headD '0' ::
      ((if D.drop 1 = [] then [] else '.' :: D.drop 1) ++
        'e' :: (if e < 0 then '-' else '+') ::
        (if eDig.length < 2 then '0' :: eDig else eDig))
  else
    let fp := dropTZ (fixedDigits w (a % 10 ^ w))
    sgn ++ natChars (a / 10 ^ w) ++ '.' :: (if fp = [] then ['0'] else fp)

def intChars (z : ℤ) : List Char :=
  if z < 0 then '-' :: natChars (-z).toNat else natChars z.toNat

def pyStrNum (q : ℚ) : String :=
  if q.den = 1 then ⟨intChars q.num⟩ else ⟨serNumL q⟩

/-- Python `str()` of a scalar. -/
def pyStrJV : JVal → String
  | .str s => s
  | .num q => pyStrNum q
  | .null => "None"

/-- Python `x or d` on a `get_any` result. -/
def orElseJV (v : Option JVal) (d : JVal) : JVal :=
  match v with
  | some x => if truthyJV x then x else d
  | none => d

def nameKeys : List String := ["name", "project", "project_name", "title", "scheme", "scheme_name"]
def sectorKeys : List String := ["sector", "category", "theme"]
def jurisKeys : List String := ["jurisdiction", "region", "country"]
def companyKeys : List String :=
  ["company", "promoter", "sponsor", "client", "authority", "organisation", "organization"]
def statusKeys : List String := ["status", "stage", "lifecycle", "phase"]
def costKeys : List String := ["cost", "total_cost", "estimated_cost", "capex", "budget", "value"]
def startKeys : List String := ["start", "start_date", "construction_start", "planned_start"]
def endKeys : List String := ["end", "end_date", "completion", "planned_completion"]
def latKeys : List String := ["lat", "latitude", "y"]
def lngKeys : List String := ["lng", "lon", "long", "longitude", "x"]

/-- `a` is a prefix of `b` (boolean). -/
def isPre : List Char → List Char → Bool
  | [], _ => true
  | _ :: _, [] => false
  | a :: as, b :: bs => a = b && isPre as bs

/-- `needle in hay` for character lists (boolean substring test). -/
def hasSub (n : List Char) : List Char → Bool
  | [] => n.isEmpty
  | c :: t => isPre n (c :: t) || hasSub n t

def strHas (needle hay : String) : Bool := hasSub needle.data hay.data

/-- `str(get_any("sector", "category", "theme") or "Other").lower()`. -/
def sectorRawOf (m : RMap) : String :=
  strLower (pyStrJV (orElseJV (get_any m sectorKeys) (.str "Other")))

/-- Sector classification of `_normalise_record`. -/
def sectorOf (m : RMap) : String :=
  if ["transport", "rail", "road", "bus"].any (fun x => strHas x (sectorRawOf m)) then "Transport"
  else if ["energy", "grid", "renew"].any (fun x => strHas x (sectorRawOf m)) then "Energy"
  else if ["water", "wastewater", "drainage", "uisce"].any (fun x => strHas x (sectorRawOf m)) then
    "Water"
  else "Other"

/-- `str(get_any("jurisdiction", "region", "country") or "").lower()`. -/
def jurisRawOf (m : RMap) : String :=
  strLower (pyStrJV (orElseJV (get_any m jurisKeys) (.str "")))

/-- Jurisdiction classification of `_normalise_record` (the `elif` arm
and the `else` arm of the source both yield `"Ireland"`). -/
def jurisdictionOf (m : RMap) : String :=
  if strHas "northern" (jurisRawOf m) then "Northern Ireland"
  else if ["ireland", "roi", "republic"].any (fun x => strHas x (jurisRawOf m)) then "Ireland"
  else "Ireland"

/-- `re.sub(r"[^0-9.\-]", "", cost)`. -/
def stripCost (s : String) : String :=
  ⟨s.data.filter (fun c => c.isDigit || c = '.' || c = '-')⟩

/-- The cost coercion block of `_normalise_record`; raises (`.error`)
when `float()` is applied to a nonempty stripped string that is not a
float literal, or to an integer outside double range (`OverflowError`
from the final `float(cost)`). -/
def costOf (m : RMap) : Except Unit PyF :=
  match get_any m costKeys with
  | some (.str s) =>
    let t := stripCost s
    if t = "" then .ok (.fin 0)
    else
      (match pyFloat t with
       | some f => .ok f
       | none => .error ())
  | some (.num q) => if ovfBound ≤ qabs q then .error () else .ok (.fin q)
  | some .null => .ok (.fin 0)
  | none => .ok (.fin 0)

/-- `float(v)` on a scalar; `.error` models the `ValueError`/`TypeError`
CPython raises on a non-numeric string or `None`, and the
`OverflowError` it raises on an integer outside double range (a
loaded JSON number of that magnitude is necessarily an `int`: doubles
cannot hold it). -/
def floatJV : JVal → Except Unit PyF
  | .num q => if ovfBound ≤ qabs q then .error () else .ok (.fin q)
  | .str s =>
    (match pyFloat s with
     | some f => .ok f
     | none => .error ())
  | .null => .error ()

/-- `float(lat) if lat not in (None, "") else None`. -/
def latOf (m : RMap) : Except Unit (Option PyF) :=
  match get_any m latKeys with
  | some v => (floatJV v).map some
  | none => .ok none

def lngOf (m : RMap) : Except Unit (Option PyF) :=
  match get_any m lngKeys with
  | some v => (floatJV v).map some
  | none => .ok none

def parse_date_o : Option JVal → Option String
  | some v => parse_date v
  | none => none

/-- The canonical (non-geometry) record of the Field Normalizer.
`endd` renders the source's `end` key (a Lean reserved word). -/
structure NormRec where
  name : String
  sector : String
  jurisdiction : String
  company : String
  status : String
  cost : PyF
  start : Option String
  endd : Option String
  lat : Option PyF
  lng : Option PyF
deriving DecidableEq, Repr

/-- `_normalise_record` from the source.  The three `float()` coercions
(cost string, lat, lng) are the only places the body can raise; they are
sequenced in source order. -/
def _normalise_record (rec : RMap) : Except Unit NormRec :=
  let m := lowerKeys rec
  match costOf m, latOf m, lngOf m with
  | .error e, _, _ => .error e
  | .ok _, .error e, _ => .error e
  | .ok _, .ok _, .error e => .error e
  | .ok cost, .ok lat, .ok lng =>
    .ok
    { name := pyStrJV (orElseJV (get_any m nameKeys) (.str "Untitled project"))
      sector := sectorOf m
      jurisdiction := jurisdictionOf m
      company := pyStrJV (orElseJV (get_any m companyKeys) (.str ""))
      status := pyStrJV (orElseJV (get_any m statusKeys) (.str ""))
      cost := cost
      start := parse_date_o (get_any m startKeys)
      endd := parse_date_o (get_any m endKeys)
      lat := lat
      lng := lng }

/-! ## Full JSON values -/

mutual
inductive J where
  | str : String → J
  | num : ℚ → J
  | bool : Bool → J
  | null : J
  | arr : JArr → J
  | obj : JObj → J

inductive JArr where
  | nil : JArr
  | cons : J → JArr → JArr

inductive JObj where
  | nil : JObj
  | cons : String → J → JObj → JObj
end

deriving instance DecidableEq for J

/-- Build a JSON array value from a Lean list. -/
def jaOfList : List J → JArr
  | [] => .nil
  | x :: xs => .cons x (jaOfList xs)

/-- Build a JSON object value from a Lean association list. -/
def joOfList : List (String × J) → JObj
  | [] => .nil
  | kv :: rest => .cons kv.1 kv.2 (joOfList rest)

def jarr (xs : List J) : J := J.arr (jaOfList xs)

def jobj (kvs : List (String × J)) : J := J.obj (joOfList kvs)

def jaToList : JArr → List J
  | .nil => []
  | .cons x xs => x :: jaToList xs

def joKeys : JObj → List String
  | .nil => []
  | .cons k _ rest => k :: joKeys rest

/-- Python truthiness of a JSON value. -/
def truthyJ : J → Bool
  | .str s => s ≠ ""
  | .num q => q ≠ 0
  | .bool b => b
  | .null => false
  | .arr .nil => false
  | .arr (.cons _ _) => true
  | .obj .nil => false
  | .obj (.cons _ _ _) => true

/-- `dict.get` on a JSON object (last binding of a duplicated key wins,
as in `json.loads`). -/
def jLook : JObj → String → Option J
  | .nil, _ => none
  | .cons k2 v rest, k =>
    match jLook rest k with
    | some r => some r
    | none => if k2 = k then some v else none

/-- `dict.get` with a default. -/
def jLookD (kvs : JObj) (k : String) (d : J) : J := (jLook kvs k).getD d

/-! ## `json.dumps` and the numeric-token regex

The Polygon/MultiPolygon branch serializes the coordinates with
`json.dumps` and pulls every match of `-?\d+\.?\d*` back out with
`re.finditer`. -/

/-- `json.dumps` rendering of a JSON number: integral values as ints,
others as terminating positional decimals where they exist (a number
whose reduced denominator is not of the form `2^a·5^b` has no finite
decimal and gets a truncated one; the theorems below restrict to
terminating values via `decTerm`). -/
def dumpNum (q : ℚ) : List Char :=
  if q.den = 1 then intChars q.num else serNumL q

mutual
def dumpsJ : J → List Char
  | .str s => '"' :: s.data ++ ['"']
  | .num q => dumpNum q
  | .bool b => if b then "true".data else "false".data
  | .null => "null".data
  | .arr xs => '[' :: dumpsArr xs ++ [']']
  | .obj kvs => '\x7b' :: dumpsObj kvs ++ ['\x7d']

def dumpsArr : JArr → List Char
  | .nil => []
  | .cons x .nil => dumpsJ x
  | .cons x (.cons y rest) => dumpsJ x ++ ',' :: ' ' :: dumpsArr (.cons y rest)

def dumpsObj : JObj → List Char
  | .nil => []
  | .cons k v .nil => '"' :: k.data ++ '"' :: ':' :: ' ' :: dumpsJ v
  | .cons k v (.cons k2 v2 rest) =>
    '"' :: k.data ++ '"' :: ':' :: ' ' :: dumpsJ v ++ ',' :: ' ' :: dumpsObj (.cons k2 v2 rest)
end

/-- `json.dumps` of a JSON value. -/
def dumpsL (j : J) : List Char := dumpsJ j

/-- Scanner state for `re.finditer(r"-?\d+\.?\d*", ·)`: outside any
match, after a bare `-`, inside the integer digits, or inside the
fractional digits. -/
inductive ScanSt where
  | start
  | minus
  | ip : Bool → List Char → ScanSt
  | fp : Bool → List Char → List Char → ScanSt

/-- `float()` of a matched token `[-]digits[.digits]` (exact). -/
def tokVal (neg : Bool) (ip fp : List Char) : ℚ :=
  Rat.divInt
    (if neg then -(digitsVal (ip ++ fp) : ℤ) else (digitsVal (ip ++ fp) : ℤ))
    (Int.ofNat (10 ^ fp.length))

def flushSt : ScanSt → List ℚ
  | .ip neg ds => [tokVal neg ds []]
  | .fp neg ds fs => [tokVal neg ds fs]
  | _ => []

/-- Left-to-right maximal-munch scan: character-level automaton of the
regex above (a match starts at a digit or at a `-` directly followed by
a digit; one optional dot splits integer and fractional digits). -/
def scanGo : ScanSt → List Char → List ℚ
  | st, [] => flushSt st
  | .start, c :: rest =>
    if c.isDigit then scanGo (.ip false [c]) rest
    else if c = '-' then scanGo .minus rest
    else scanGo .start rest
  | .minus, c :: rest =>
    if c.isDigit then scanGo (.ip true [c]) rest
    else if c = '-' then scanGo .minus rest
    else scanGo .start rest
  | .ip neg ds, c :: rest =>
    if c.isDigit then scanGo (.ip neg (ds ++ [c])) rest
    else if c = '.' then scanGo (.fp neg ds []) rest
    else tokVal neg ds [] :: (if c = '-' then scanGo .minus rest else scanGo .start rest)
  | .fp neg ds fs, c :: rest =>
    if c.isDigit then scanGo (.fp neg ds (fs ++ [c])) rest
    else tokVal neg ds fs :: (if c = '-' then scanGo .minus rest else scanGo .start rest)

/-- `[float(m.group()) for m in re.finditer(r"-?\d+\.?\d*", s)]`. -/
def scanNums (l : List Char) : List ℚ := scanGo .start l

/-- `nums[::2]` / `nums[1::2]`. -/
def altSplit : Bool → List ℚ → List ℚ
  | _, [] => []
  | true, x :: xs => x :: altSplit false xs
  | false, _ :: xs => altSplit true xs

def qMin (a b : ℚ) : ℚ := if a ≤ b then a else b

def qMax (a b : ℚ) : ℚ := if a ≤ b then b else a

/-- `min` of a nonempty list (`0` junk on `[]`, never used there). -/
def listMin : List ℚ → ℚ
  | [] => 0
  | x :: xs => xs.foldl qMin x

def listMax : List ℚ → ℚ
  | [] => 0
  | x :: xs => xs.foldl qMax x

/-! ## The Feature Adapter -/

/-- A value as stored in a project's `coords` tuple: either a raw JSON
value (the `tuple(...)` Point branch) or a computed float (the
Polygon/bounding-box and lat/lng-fallback branches). -/
inductive PyV where
  | jv : J → PyV
  | fv : PyF → PyV
deriving DecidableEq

/-- One GeoJSON feature after the `properties`/`geometry` extraction:
`props` is `feature.get("properties", {}) or {}` (scalar values — the
shape every claim quantifies over) and `geom` is the raw `geometry`
member, `none` when absent. -/
structure Feature where
  props : RMap
  geom : Option J
deriving DecidableEq

/-- A canonical project record (the dict literal returned by
`_feature_to_project`); `endd` renders the source's `end` key. -/
structure Proj where
  id : String
  name : String
  sector : String
  jurisdiction : String
  company : String
  status : String
  cost : PyF
  start : Option String
  endd : Option String
  coords : List PyV
  url : JVal
deriving DecidableEq

/-- First-occurrence deduplication (dict key iteration order). -/
def dedupFirstGo : ℕ → List String → List String
  | 0, _ => []
  | _ + 1, [] => []
  | f + 1, s :: rest => s :: dedupFirstGo f (rest.filter (fun t => t ≠ s))

def dedupFirst (l : List String) : List String := dedupFirstGo l.length l

/-- `tuple(x)`: lists stay, strings become their characters, dicts their
keys (first occurrence); `tuple` of `None`/numbers/booleans raises. -/
def tupleJ : J → Except Unit (List J)
  | .arr xs => .ok (jaToList xs)
  | .str s => .ok (s.data.map (fun c => J.str ⟨[c]⟩))
  | .obj kvs => .ok ((dedupFirst (joKeys kvs)).map J.str)
  | _ => .error ()

/-- The numeric stream the Polygon/MultiPolygon branch extracts from a
coordinates value. -/
def polyNums (c : J) : List ℚ := scanNums (dumpsL c)

/-- The Polygon/MultiPolygon branch: even/odd split of the numeric
stream, then the midpoint of each stream's min/max, provided both
streams are nonempty. -/
def polyCentroid (c : J) : Option (List PyV) :=
  let nums := polyNums c
  let lngs := altSplit true nums
  let lats := altSplit false nums
  if !lngs.isEmpty && !lats.isEmpty then
    some [PyV.fv (.fin (qDiv (qAdd (listMin lngs) (listMax lngs)) 2)),
          PyV.fv (.fin (qDiv (qAdd (listMin lats) (listMax lats)) 2))]
  else none

/-- Python `a or b or c or d` over `dict.get` results. -/
def orChainJV : List (Option JVal) → JVal → JVal
  | [], d => d
  | v :: rest, d =>
    match v with
    | some x => if truthyJV x then x else orChainJV rest d
    | none => orChainJV rest d

/-- Modelled from the spec: the synthetic id appends a 6-character digest
of the sorted-key serialization of the property map.  CPython's `hash()`
is process-seeded, so the spec fixes only that the digest is a
deterministic function of the canonicalized map; it is modelled as a
character-sum digest. -/
def propsDigest (props : RMap) : ℕ :=
  ((props.map (fun kv => kv.1 ++ pyStrJV kv.2)).mergeSort (fun a b => a ≤ b)).foldl
    (fun a s => s.data.foldl (fun b c => 31 * b + c.toNat) a) 7

def synthId (name : String) (props : RMap) : String :=
  name ++ "-" ++ ⟨(natChars (propsDigest props)).take 6⟩

/-- The geometry-resolution block of `_feature_to_project`:
`if geom.get("type") == "Point": ... elif geom.get("type") in
("Polygon", "MultiPolygon"): ...`; a non-dict truthy geometry raises at
`geom.get`. -/
def resolveGeom (geomJ : J) : Except Unit (Option (List PyV)) :=
  match geomJ with
  | .obj kvs =>
    let t := jLook kvs "type"
    if t = some (J.str "Point") then
      (tupleJ (jLookD kvs "coordinates" (jarr [J.null, J.null]))).map
        (fun xs => some (xs.map PyV.jv))
    else if t = some (J.str "Polygon") ∨ t = some (J.str "MultiPolygon") then
      .ok (polyCentroid (jLookD kvs "coordinates" (jarr [])))
    else .ok none
  | _ => .error ()

/-- `feature.get("geometry", {}) or {}`. -/
def geomEff (g : Option J) : J :=
  match g with
  | none => .obj .nil
  | some g2 => if truthyJ g2 then g2 else .obj .nil

/-- The record literal `_feature_to_project` returns on success. -/
def mkProj (n : NormRec) (props : RMap) (cs : List PyV) : Proj :=
  { id := pyStrJV (orChainJV [dget props "id", dget props "objectid", dget props "globalid"]
      (.str (synthId n.name props)))
    name := n.name
    sector := n.sector
    jurisdiction := n.jurisdiction
    company := n.company
    status := n.status
    cost := n.cost
    start := n.start
    endd := n.endd
    coords := cs
    url := orChainJV [dget props "url", dget props "link", dget props "source"] (.str "") }

/-- The lat/lng fallback: geometry-resolved coordinates win; otherwise
the normalized scalar `lng`/`lat` pair when both are present. -/
def coordsOf (n : NormRec) (c0 : Option (List PyV)) : Option (List PyV) :=
  match c0 with
  | some c => some c
  | none =>
    match n.lng, n.lat with
    | some b, some a => some [PyV.fv b, PyV.fv a]
    | _, _ => none

/-- `_feature_to_project` from the source: normalise the properties,
resolve coordinates (Point tuple, Polygon/MultiPolygon bounding-box
midpoint, then the lat/lng fallback), drop the feature if none resolve,
and build the record with the id/url priority chains. -/
def _feature_to_project (feature : Feature) : Except Unit (Option Proj) :=
  match _normalise_record feature.props with
  | .error e => .error e
  | .ok n =>
  match resolveGeom (geomEff feature.geom) with
  | .error e => .error e
  | .ok c0 =>
  match coordsOf n c0 with
  | none => .ok none
  | some cs => .ok (some (mkProj n feature.props cs))

/-! ## ArcGIS URL Builder -/

def qsegChars : List Char := "/query?".data

def arcSuffix : String := "/query?where=1%3D1&outFields=*&f=geojson"

/-- `str.rstrip("/")`. -/
def rstripSlash (l : List Char) : List Char :=
  (l.reverse.dropWhile (fun c => c = '/')).reverse

/-- `build_arcgis_query`: strip whitespace; empty → empty; a URL already
containing `/query?` is returned (stripped); otherwise trailing slashes
are removed and the fixed GeoJSON query suffix is appended. -/
def build_arcgis_query (url : String) : String :=
  let s := stripEnds isPyWs url.data
  if s.isEmpty then ""
  else if hasSub qsegChars s then ⟨s⟩
  else ⟨rstripSlash s ++ arcSuffix.data⟩

/-! ## Collection Loader -/

/-- The scalar fragment of JSON property values (the shape every claim
quantifies over); nested property values are outside this model and are
mapped to a boundary error by `jToFeature`. -/
def scalarize : J → Option JVal
  | .str s => some (.str s)
  | .num q => some (.num q)
  | .null => some .null
  | _ => none

def scalarizeObj : JObj → Option RMap
  | .nil => some []
  | .cons k v rest =>
    match scalarize v, scalarizeObj rest with
    | some sv, some m => some ((k, sv) :: m)
    | _, _ => none

/-- Extraction of one feature from a raw JSON element:
`feature.get("properties", {}) or {}` (raising on a non-dict feature or
truthy non-dict properties, as `.get`/`.items()` do) and the raw
`geometry` member. -/
def jToFeature : J → Except Unit Feature
  | .obj kvs =>
    (match jLook kvs "properties" with
     | none => .ok { props := [], geom := jLook kvs "geometry" }
     | some v =>
       if truthyJ v then
         match v with
         | .obj pkvs =>
           (match scalarizeObj pkvs with
            | some m => .ok { props := m, geom := jLook kvs "geometry" }
            | none => .error ())
         | _ => .error ()
       else .ok { props := [], geom := jLook kvs "geometry" })
  | _ => .error ()

/-- The Feature Adapter applied to a raw JSON feature element. -/
def adaptJ (f : J) : Except Unit (Option Proj) :=
  match jToFeature f with
  | .error e => .error e
  | .ok ft => _feature_to_project ft

/-- The loader loop: adapt each feature in order, keep the non-absent
results, propagate the first raise. -/
def collectProjects : JArr → Except Unit (List Proj)
  | .nil => .ok []
  | .cons f fs =>
    match adaptJ f with
    | .error e => .error e
    | .ok p =>
      match collectProjects fs with
      | .error e => .error e
      | .ok rest =>
        .ok (match p with | some pr => pr :: rest | none => rest)

/-- `load_geojson` on a parsed response body (the HTTP fetch is the
injected transport; its failures are outside the core).  A top-level
value that is not a dict with `type == "FeatureCollection"` raises the
validation `ValueError`; `features` defaults to `[]` when absent or
falsy; iterating a truthy non-list value raises. -/
def load_geojson (body : J) : Except Unit (List Proj) :=
  match body with
  | .obj kvs =>
    (match jLook kvs "type" with
     | some (.str t) =>
       if t = "FeatureCollection" then
         match jLook kvs "features" with
         | none => collectProjects .nil
         | some v =>
           if truthyJ v then
             match v with
             | .arr xs => collectProjects xs
             | _ => .error ()
           else collectProjects .nil
       else .error ()
     | _ => .error ())
  | _ => .error ()

/-- Is the body a dict with `type == "FeatureCollection"`? -/
def isFC (body : J) : Bool :=
  match body with
  | .obj kvs =>
    (match jLook kvs "type" with
     | some (.str t) => t = "FeatureCollection"
     | _ => false)
  | _ => false

/-! ## Project Merger -/

/-- `dict.__setitem__` on an id-keyed association list with unique keys:
replace in place or append. -/
def upsert : List Proj → Proj → List Proj
  | [], p => [p]
  | q :: rest, p => if q.id = p.id then p :: rest else q :: upsert rest p

/-- `merge_projects`: build the id-keyed mapping from `existing`, overlay
each `incoming` record, return the values in mapping order. -/
def merge_projects (existing incoming : List Proj) : List Proj :=
  incoming.foldl upsert (existing.foldl upsert [])

/-! ## String-stripping lemmas -/

theorem head?_dropWhile_false {α : Type} (p : α → Bool) :
    ∀ (l : List α) (c : α), (l.dropWhile p).head? = some c → p c = false := by
  intro l
  induction l with
  | nil => intro c h; simp [List.dropWhile] at h
  | cons a t ih =>
    intro c h
    rw [List.dropWhile_cons] at h
    by_cases hp : p a
    · exact ih c (by simpa [hp] using h)
    · simp [hp] at h
      subst h
      simp at hp
      simp [hp]

theorem prefix_head_eq {α : Type} {l₁ l₂ : List α} (h : l₁ <+: l₂) (hne : l₁ ≠ []) :
    l₂.head? = l₁.head? := by
  obtain ⟨t, rfl⟩ := h
  cases l₁ with
  | nil => exact absurd rfl hne
  | cons a l => simp

theorem stripEnds_prefix (p : Char → Bool) (l : List Char) :
    stripEnds p l <+: l.dropWhile p := by
  have h2 := List.reverse_prefix.mpr (List.dropWhile_suffix p (l := (l.dropWhile p).reverse))
  rw [List.reverse_reverse] at h2
  exact h2

theorem stripEnds_head_false (p : Char → Bool) (l : List Char) (c : Char)
    (h : (stripEnds p l).head? = some c) : p c = false := by
  have hpre := stripEnds_prefix p l
  have hne : stripEnds p l ≠ [] := by
    intro he
    rw [he] at h
    simp at h
  have := prefix_head_eq hpre hne
  exact head?_dropWhile_false p l c (by rw [this, h])

theorem stripEnds_getLast_false (p : Char → Bool) (l : List Char) (c : Char)
    (h : (stripEnds p l).getLast? = some c) : p c = false := by
  unfold stripEnds at h
  rw [List.getLast?_reverse] at h
  exact head?_dropWhile_false p _ c h

theorem stripEnds_eq_self (p : Char → Bool) (l : List Char)
    (h1 : ∀ c, l.head? = some c → p c = false)
    (h2 : ∀ c, l.getLast? = some c → p c = false) : stripEnds p l = l := by
  cases l with
  | nil => rfl
  | cons a t =>
    have ha : p a = false := h1 a rfl
    unfold stripEnds
    rw [List.dropWhile_cons, if_neg (by simp [ha])]
    have hr : (a :: t).reverse.dropWhile p = (a :: t).reverse := by
      cases hrev : (a :: t).reverse with
      | nil => exact absurd hrev (by simp)
      | cons c r2 =>
        have hlast : (a :: t).getLast? = some c := by
          rw [← List.head?_reverse, hrev]
          rfl
        rw [List.dropWhile_cons, if_neg (by simp [h2 c hlast])]
    rw [hr, List.reverse_reverse]

theorem stripEnds_idem (p : Char → Bool) (l : List Char) :
    stripEnds p (stripEnds p l) = stripEnds p l :=
  stripEnds_eq_self p _ (stripEnds_head_false p l) (stripEnds_getLast_false p l)

theorem rstripSlash_prefix (l : List Char) : rstripSlash l <+: l := by
  have h2 := List.reverse_prefix.mpr (List.dropWhile_suffix (fun c => c = '/') (l := l.reverse))
  rw [List.reverse_reverse] at h2
  exact h2

theorem hasSub_append_right (n b : List Char) (h : hasSub n b = true) :
    ∀ a : List Char, hasSub n (a ++ b) = true := by
  intro a
  induction a with
  | nil => simpa using h
  | cons c t ih =>
    rw [List.cons_append, hasSub, Bool.or_eq_true]
    exact Or.inr ih

/-! ## C9: the ArcGIS URL builder -/

theorem build_eq_of_empty (u : String) (h : (stripEnds isPyWs u.data).isEmpty = true) :
    build_arcgis_query u = "" := by
  unfold build_arcgis_query
  rw [if_pos h]

theorem build_eq_of_hasSub (u : String) (h1 : (stripEnds isPyWs u.data).isEmpty = false)
    (h2 : hasSub qsegChars (stripEnds isPyWs u.data) = true) :
    build_arcgis_query u = ⟨stripEnds isPyWs u.data⟩ := by
  unfold build_arcgis_query
  rw [if_neg (by simp [h1]), if_pos h2]

theorem build_eq_of_append (u : String) (h1 : (stripEnds isPyWs u.data).isEmpty = false)
    (h2 : hasSub qsegChars (stripEnds isPyWs u.data) = false) :
    build_arcgis_query u = ⟨rstripSlash (stripEnds isPyWs u.data) ++ arcSuffix.data⟩ := by
  unfold build_arcgis_query
  rw [if_neg (by simp [h1]), if_neg (by simp [h2])]

theorem mkData (l : List Char) : (⟨l⟩ : String).data = l := rfl

theorem append_result_stripfix (s : List Char)
    (hhead : ∀ c, s.head? = some c → isPyWs c = false) :
    stripEnds isPyWs (rstripSlash s ++ arcSuffix.data) = rstripSlash s ++ arcSuffix.data := by
  apply stripEnds_eq_self
  · intro c hc
    cases hrs : rstripSlash s with
    | nil =>
      rw [hrs] at hc
      simp only [List.nil_append] at hc
      have h2 : arcSuffix.data.head? = some '/' := by decide
      rw [h2] at hc
      obtain rfl := Option.some_inj.mp hc
      decide
    | cons d t =>
      rw [hrs] at hc
      simp only [List.cons_append, List.head?_cons, Option.some_inj] at hc
      subst hc
      have hpre := rstripSlash_prefix s
      rw [hrs] at hpre
      have hh := prefix_head_eq hpre (by simp)
      exact hhead d (by rw [hh]; rfl)
  · intro c hc
    rw [List.getLast?_append_of_ne_nil _ (by decide)] at hc
    have h2 : arcSuffix.data.getLast? = some 'n' := by decide
    rw [h2] at hc
    obtain rfl := Option.some_inj.mp hc
    decide

theorem append_result_ne_nil (s : List Char) :
    (rstripSlash s ++ arcSuffix.data).isEmpty = false := by
  cases hrs : rstripSlash s with
  | nil => simp only [List.nil_append]; decide
  | cons d t => simp

/-- C9 counterexample: a URL that already contains `/query?` but carries
surrounding whitespace is returned stripped, not unchanged. -/
theorem c9_counterexample :
    build_arcgis_query " https://x/query?a" = "https://x/query?a" ∧
    ("https://x/query?a" : String) ≠ " https://x/query?a" := ⟨by decide, by decide⟩

/-- C9 (amended): `build_arcgis_query` is idempotent on every string;
empty input yields empty output; a URL whose whitespace-stripped form
already contains `/query?` is returned in that stripped form (unchanged
only up to whitespace stripping); otherwise trailing slashes are
dropped and the fixed GeoJSON query suffix is appended. -/
theorem c9_build_query_idempotent :
    (∀ u : String, build_arcgis_query (build_arcgis_query u) = build_arcgis_query u) ∧
    build_arcgis_query "" = "" ∧
    (∀ u : String, hasSub qsegChars (stripEnds isPyWs u.data) = true →
      build_arcgis_query u = ⟨stripEnds isPyWs u.data⟩) ∧
    (∀ u : String, (stripEnds isPyWs u.data).isEmpty = false →
      hasSub qsegChars (stripEnds isPyWs u.data) = false →
      build_arcgis_query u = ⟨rstripSlash (stripEnds isPyWs u.data) ++ arcSuffix.data⟩) := by
  refine ⟨?_, by decide, ?_, ?_⟩
  · intro u
    by_cases h1 : (stripEnds isPyWs u.data).isEmpty
    · rw [build_eq_of_empty u h1, build_eq_of_empty "" (by decide)]
    · by_cases h2 : hasSub qsegChars (stripEnds isPyWs u.data)
      · rw [build_eq_of_hasSub u (by simpa using h1) h2]
        have hfix := stripEnds_idem isPyWs u.data
        have h1b : (stripEnds isPyWs (⟨stripEnds isPyWs u.data⟩ : String).data).isEmpty = false := by
          rw [mkData, hfix]
          simpa using h1
        have h2b :
            hasSub qsegChars (stripEnds isPyWs (⟨stripEnds isPyWs u.data⟩ : String).data) = true := by
          rw [mkData, hfix]
          exact h2
        rw [build_eq_of_hasSub _ h1b h2b, mkData, hfix]
      · rw [build_eq_of_append u (by simpa using h1) (by simpa using h2)]
        have hfix := append_result_stripfix (stripEnds isPyWs u.data)
          (stripEnds_head_false isPyWs u.data)
        have h1b : (stripEnds isPyWs
            (⟨rstripSlash (stripEnds isPyWs u.data) ++ arcSuffix.data⟩ : String).data).isEmpty =
            false := by
          rw [mkData, hfix]
          exact append_result_ne_nil _
        have h2b : hasSub qsegChars (stripEnds isPyWs
            (⟨rstripSlash (stripEnds isPyWs u.data) ++ arcSuffix.data⟩ : String).data) = true := by
          rw [mkData, hfix]
          exact hasSub_append_right _ _ (by decide) _
        rw [build_eq_of_hasSub _ h1b h2b, mkData, hfix]
  · intro u h2
    by_cases h1 : (stripEnds isPyWs u.data).isEmpty
    · have hnil : stripEnds isPyWs u.data = [] := by
        cases h : stripEnds isPyWs u.data
        · rfl
        · rw [h] at h1; simp at h1
      rw [hnil] at h2
      simp [hasSub, qsegChars, isPre] at h2
    · exact build_eq_of_hasSub u (by simpa using h1) h2
  · intro u h1 h2
    exact build_eq_of_append u h1 h2

/-- C9 witness: the stripped-unchanged clause at a concrete URL. -/
theorem c9_witness :
    hasSub qsegChars (stripEnds isPyWs ("https://x/query?a" : String).data) = true ∧
    build_arcgis_query "https://x/query?a" =
      ⟨stripEnds isPyWs ("https://x/query?a" : String).data⟩ :=
  ⟨by decide, c9_build_query_idempotent.2.2.1 "https://x/query?a" (by decide)⟩

/-! ## C8: the Project Merger -/

/-- The ids `B` contributes beyond `seen`, in first-occurrence order
(the order in which `dict.__setitem__` appends new keys). -/
def newIds (seen : List String) : List String → List String
  | [] => []
  | i :: rest => if i ∈ seen then newIds seen rest else i :: newIds (i :: seen) rest

theorem upsert_map_id_mem (l : List Proj) (p : Proj) (h : p.id ∈ l.map Proj.id) :
    (upsert l p).map Proj.id = l.map Proj.id := by
  induction l with
  | nil => simp at h
  | cons q rest ih =>
    rw [upsert]
    by_cases hq : q.id = p.id
    · rw [if_pos hq]
      simp [hq]
    · rw [if_neg hq]
      simp only [List.map_cons]
      congr 1
      apply ih
      rw [List.map_cons] at h
      rcases List.mem_cons.mp h with h1 | h1
      · exact absurd h1.symm hq
      · exact h1

theorem upsert_not_mem (l : List Proj) (p : Proj) (h : p.id ∉ l.map Proj.id) :
    upsert l p = l ++ [p] := by
  induction l with
  | nil => rfl
  | cons q rest ih =>
    rw [upsert]
    have hq : q.id ≠ p.id := by
      intro he
      exact h (by rw [List.map_cons, ← he]; exact List.mem_cons_self _ _)
    rw [if_neg hq, List.cons_append]
    congr 1
    exact ih (fun hm => h (by simp [hm]))

theorem self_mem_upsert (l : List Proj) (p : Proj) : p ∈ upsert l p := by
  induction l with
  | nil => simp [upsert]
  | cons q rest ih =>
    rw [upsert]
    by_cases hq : q.id = p.id
    · rw [if_pos hq]; simp
    · rw [if_neg hq]; simp [ih]

theorem mem_upsert_elim (l : List Proj) (p r : Proj) (h : r ∈ upsert l p) :
    r = p ∨ r ∈ l := by
  induction l with
  | nil => simpa [upsert] using h
  | cons q rest ih =>
    rw [upsert] at h
    by_cases hq : q.id = p.id
    · rw [if_pos hq] at h
      rcases List.mem_cons.mp h with h1 | h1
      · exact Or.inl h1
      · exact Or.inr (List.mem_cons.mpr (Or.inr h1))
    · rw [if_neg hq] at h
      rcases List.mem_cons.mp h with h1 | h1
      · exact Or.inr (by simp [h1])
      · rcases ih h1 with h2 | h2
        · exact Or.inl h2
        · exact Or.inr (by simp [h2])

theorem nodup_upsert (l : List Proj) (p : Proj) (h : (l.map Proj.id).Nodup) :
    ((upsert l p).map Proj.id).Nodup := by
  by_cases hm : p.id ∈ l.map Proj.id
  · rw [upsert_map_id_mem l p hm]
    exact h
  · rw [upsert_not_mem l p hm]
    simp only [List.map_append, List.map_cons, List.map_nil]
    have h2 : ([p.id] ++ l.map Proj.id).Nodup := by
      simpa using List.nodup_cons.mpr ⟨hm, h⟩
    exact List.nodup_append_comm.mp h2

theorem nodup_foldl_upsert (B : List Proj) :
    ∀ acc : List Proj, ((acc.map Proj.id).Nodup) →
      (((B.foldl upsert acc).map Proj.id).Nodup) := by
  induction B with
  | nil => intro acc h; simpa using h
  | cons b B2 ih =>
    intro acc h
    rw [List.foldl_cons]
    exact ih (upsert acc b) (nodup_upsert acc b h)

theorem foldl_upsert_disjoint (A : List Proj) :
    ∀ acc : List Proj, (∀ a ∈ A, a.id ∉ acc.map Proj.id) → ((A.map Proj.id).Nodup) →
      A.foldl upsert acc = acc ++ A := by
  induction A with
  | nil => intro acc _ _; simp
  | cons a A2 ih =>
    intro acc hdis hnd
    rw [List.foldl_cons, upsert_not_mem acc a (hdis a (by simp))]
    have hpair := List.nodup_cons.mp (by rw [List.map_cons] at hnd; exact hnd)
    have hnd2 : (A2.map Proj.id).Nodup := hpair.2
    have hha : a.id ∉ A2.map Proj.id := hpair.1
    rw [ih (acc ++ [a]) ?_ hnd2]
    · simp
    · intro b hb
      simp only [List.map_append, List.map_cons, List.map_nil, List.mem_append]
      rintro (h1 | h1)
      · exact hdis b (by simp [hb]) h1
      · simp at h1
        exact hha (h1 ▸ List.mem_map_of_mem Proj.id hb)

theorem toDict_self (A : List Proj) (h : (A.map Proj.id).Nodup) :
    A.foldl upsert [] = A := by
  rw [foldl_upsert_disjoint A [] (by simp) h]
  simp

theorem find?_upsert_self (l : List Proj) (p : Proj) :
    (upsert l p).find? (fun q => q.id = p.id) = some p := by
  induction l with
  | nil => simp [upsert]
  | cons q rest ih =>
    rw [upsert]
    by_cases hq : q.id = p.id
    · rw [if_pos hq]
      simp
    · rw [if_neg hq]
      rw [List.find?_cons_of_neg _ (by simpa using hq)]
      exact ih

theorem find?_upsert_other (l : List Proj) (p : Proj) (s : String) (h : p.id ≠ s) :
    (upsert l p).find? (fun q => q.id = s) = l.find? (fun q => q.id = s) := by
  induction l with
  | nil => simp [upsert, List.find?, h]
  | cons q rest ih =>
    rw [upsert]
    by_cases hq : q.id = p.id
    · rw [if_pos hq]
      rw [List.find?_cons_of_neg _ (by simpa using h),
        List.find?_cons_of_neg _ (by simp [hq]; simpa using h)]
    · rw [if_neg hq]
      cases hqs : (decide (q.id = s)) with
      | true =>
        rw [List.find?_cons_of_pos _ (by simpa using hqs), List.find?_cons_of_pos _ (by simpa using hqs)]
      | false =>
        rw [List.find?_cons_of_neg _ (by simpa using hqs), List.find?_cons_of_neg _ (by simpa using hqs)]
        exact ih

theorem find?_foldl_upsert (B : List Proj) :
    ∀ (acc : List Proj) (s : String), s ∈ B.map Proj.id →
      (B.foldl upsert acc).find? (fun q => q.id = s) =
        B.reverse.find? (fun q => q.id = s) := by
  induction B using List.reverseRecOn with
  | nil => intro acc s h; simp at h
  | append_singleton B2 b ih =>
    intro acc s h
    rw [List.foldl_append, List.foldl_cons, List.foldl_nil, List.reverse_append]
    simp only [List.reverse_cons, List.reverse_nil, List.nil_append, List.singleton_append]
    by_cases hs : b.id = s
    · subst hs
      rw [find?_upsert_self, List.find?_cons_of_pos _ (by simp)]
    · rw [find?_upsert_other _ b s hs, List.find?_cons_of_neg _ (by simpa using hs)]
      apply ih
      rw [List.map_append] at h
      rcases List.mem_append.mp h with h1 | h1
      · exact h1
      · simp at h1
        exact absurd h1.symm hs

theorem mem_foldl_upsert_of_id (B : List Proj) :
    ∀ (acc : List Proj) (r : Proj), ((acc.map Proj.id).Nodup) →
      r ∈ B.foldl upsert acc → r.id ∈ B.map Proj.id → r ∈ B := by
  induction B using List.reverseRecOn with
  | nil => intro acc r _ _ h; simp at h
  | append_singleton B2 b ih =>
    intro acc r hnd hr hid
    rw [List.foldl_append, List.foldl_cons, List.foldl_nil] at hr
    rcases mem_upsert_elim _ b r hr with h1 | h1
    · simp [h1]
    · rw [List.map_append] at hid
      rcases List.mem_append.mp hid with h2 | h2
      · exact List.mem_append.mpr (Or.inl (ih acc r hnd h1 h2))
      · simp only [List.map_cons, List.map_nil, List.mem_singleton] at h2
        have hndL : (((B2.foldl upsert acc).map Proj.id)).Nodup := nodup_foldl_upsert B2 acc hnd
        have hndU2 : (((upsert (B2.foldl upsert acc) b)).map Proj.id).Nodup :=
          nodup_upsert (B2.foldl upsert acc) b hndL
        have hbmem : b ∈ upsert (B2.foldl upsert acc) b := self_mem_upsert _ b
        have := List.inj_on_of_nodup_map hndU2 hr hbmem (by rw [h2])
        simp [this]

theorem newIds_congr (l : List String) :
    ∀ s1 s2 : List String, (∀ x, x ∈ s1 ↔ x ∈ s2) → newIds s1 l = newIds s2 l := by
  induction l with
  | nil => intro s1 s2 _; rfl
  | cons i rest ih =>
    intro s1 s2 he
    rw [newIds, newIds]
    by_cases hm : i ∈ s1
    · rw [if_pos hm, if_pos ((he i).mp hm)]
      exact ih s1 s2 he
    · rw [if_neg hm, if_neg (fun hx => hm ((he i).mpr hx))]
      congr 1
      apply ih
      intro x
      simp only [List.mem_cons]
      constructor
      · rintro (h1 | h1)
        · exact Or.inl h1
        · exact Or.inr ((he x).mp h1)
      · rintro (h1 | h1)
        · exact Or.inl h1
        · exact Or.inr ((he x).mpr h1)

theorem map_id_foldl_upsert (B : List Proj) :
    ∀ acc : List Proj,
      (B.foldl upsert acc).map Proj.id =
        acc.map Proj.id ++ newIds (acc.map Proj.id) (B.map Proj.id) := by
  induction B with
  | nil => intro acc; simp [newIds]
  | cons b B2 ih =>
    intro acc
    rw [List.foldl_cons, ih (upsert acc b), List.map_cons, newIds]
    by_cases hm : b.id ∈ acc.map Proj.id
    · rw [upsert_map_id_mem acc b hm, if_pos hm]
    · rw [upsert_not_mem acc b hm, if_neg hm]
      simp only [List.map_append, List.map_cons, List.map_nil]
      rw [List.append_assoc]
      congr 1
      simp only [List.singleton_append]
      congr 1
      apply newIds_congr
      intro x
      simp only [List.mem_append, List.mem_singleton, List.mem_cons]
      tauto

/-- C8 counterexample: `merge(A, [])` collapses a duplicated id inside
`A` (last write wins), so it is not the identity on all record lists. -/
theorem c8_counterexample :
    merge_projects
      [{ id := "x", name := "A", sector := "Other", jurisdiction := "Ireland", company := "",
         status := "", cost := .fin 0, start := none, endd := none, coords := [], url := .str "" },
       { id := "x", name := "B", sector := "Other", jurisdiction := "Ireland", company := "",
         status := "", cost := .fin 0, start := none, endd := none, coords := [], url := .str "" }]
      [] =
      [{ id := "x", name := "B", sector := "Other", jurisdiction := "Ireland", company := "",
         status := "", cost := .fin 0, start := none, endd := none, coords := [], url := .str "" }] ∧
    ([{ id := "x", name := "B", sector := "Other", jurisdiction := "Ireland", company := "",
        status := "", cost := .fin 0, start := none, endd := none, coords := [],
        url := .str "" }] : List Proj) ≠
      [{ id := "x", name := "A", sector := "Other", jurisdiction := "Ireland", company := "",
         status := "", cost := .fin 0, start := none, endd := none, coords := [], url := .str "" },
       { id := "x", name := "B", sector := "Other", jurisdiction := "Ireland", company := "",
         status := "", cost := .fin 0, start := none, endd := none, coords := [],
         url := .str "" }] := ⟨by decide, by decide⟩

/-- C8 (amended): for id-nodup `A`, `merge(A, []) = A`; for any id
occurring in `B` the merged record under that id is the last record of
`B` carrying it (never `A`'s: every merged record whose id occurs in `B`
is a member of `B`); merged ids are always nodup; and the output order
keeps `A`'s positions (re-loaded records stay in place) with ids new in
`B` appended in first-occurrence order. -/
theorem c8_merge_laws :
    (∀ A : List Proj, (A.map Proj.id).Nodup → merge_projects A [] = A) ∧
    (∀ (A B : List Proj) (s : String), s ∈ B.map Proj.id →
      (merge_projects A B).find? (fun q => q.id = s) =
        B.reverse.find? (fun q => q.id = s)) ∧
    (∀ (A B : List Proj) (r : Proj), r ∈ merge_projects A B → r.id ∈ B.map Proj.id → r ∈ B) ∧
    (∀ A B : List Proj, ((merge_projects A B).map Proj.id).Nodup) ∧
    (∀ A B : List Proj, (A.map Proj.id).Nodup →
      (merge_projects A B).map Proj.id =
        A.map Proj.id ++ newIds (A.map Proj.id) (B.map Proj.id)) := by
  refine ⟨?_, ?_, ?_, ?_, ?_⟩
  · intro A h
    rw [merge_projects, List.foldl_nil, toDict_self A h]
  · intro A B s h
    exact find?_foldl_upsert B _ s h
  · intro A B r hr hid
    exact mem_foldl_upsert_of_id B _ r (nodup_foldl_upsert A [] (by simp)) hr hid
  · intro A B
    exact nodup_foldl_upsert B _ (nodup_foldl_upsert A [] (by simp))
  · intro A B h
    rw [merge_projects, toDict_self A h]
    exact map_id_foldl_upsert B A

/-- C8 witness: the laws applied at a concrete overlap. -/
theorem c8_witness :
    (([{ id := "a", name := "P1", sector := "Other", jurisdiction := "Ireland", company := "",
         status := "", cost := .fin 0, start := none, endd := none, coords := [],
         url := .str "" },
       { id := "b", name := "P2", sector := "Other", jurisdiction := "Ireland", company := "",
         status := "", cost := .fin 0, start := none, endd := none, coords := [],
         url := .str "" }] : List Proj).map Proj.id).Nodup ∧
    merge_projects
      [{ id := "a", name := "P1", sector := "Other", jurisdiction := "Ireland", company := "",
         status := "", cost := .fin 0, start := none, endd := none, coords := [],
         url := .str "" },
       { id := "b", name := "P2", sector := "Other", jurisdiction := "Ireland", company := "",
         status := "", cost := .fin 0, start := none, endd := none, coords := [],
         url := .str "" }] [] =
      [{ id := "a", name := "P1", sector := "Other", jurisdiction := "Ireland", company := "",
         status := "", cost := .fin 0, start := none, endd := none, coords := [],
         url := .str "" },
       { id := "b", name := "P2", sector := "Other", jurisdiction := "Ireland", company := "",
         status := "", cost := .fin 0, start := none, endd := none, coords := [],
         url := .str "" }] :=
  ⟨by decide, c8_merge_laws.1 _ (by decide)⟩

/-! ## C2: the Date Parser epoch heuristic -/

/-- C2 counterexample: `1e6` is below the `1e9` magnitude bound, yet the
code uses it directly as epoch milliseconds (1970-01-01) instead of
scaling it by 1000 as epoch seconds (which would give 1970-01-12). -/
theorem c2_counterexample :
    parse_date (JVal.num 1000000) = some "1970-01-01" ∧
    utcDateOfSeconds 1000000 = some "1970-01-12" ∧
    parse_date (JVal.num 1000000) ≠ utcDateOfSeconds 1000000 :=
  ⟨by decide, by decide, by decide⟩

/-- C2 (amended): a numeric value `v` is scaled ×1000 (treated as epoch
seconds) exactly when `1e9 < v ≤ 1e12`; values above `1e12` and values
at or below `1e9` are used directly as epoch milliseconds; the instant
is converted to UTC and formatted `YYYY-MM-DD`. -/
theorem c2_epoch_scaling :
    (∀ q : ℚ, 1000000000 < q → q ≤ 1000000000000 →
      parse_date (.num q) = utcDateOfSeconds q) ∧
    (∀ q : ℚ, q ≤ 1000000000 → parse_date (.num q) = utcDateOfMillis q) ∧
    (∀ q : ℚ, 1000000000000 < q → parse_date (.num q) = utcDateOfMillis q) := by
  refine ⟨?_, ?_, ?_⟩
  · intro q h1 h2
    simp only [parse_date]
    rw [if_neg (not_lt.mpr h2), if_pos h1]
    unfold utcDateOfSeconds
    congr 1
    rw [qDiv_eq, qMul_eq]
    exact mul_div_cancel_right₀ q (by norm_num)
  · intro q h1
    simp only [parse_date]
    rw [if_neg (not_lt.mpr (le_trans h1 (by norm_num))), if_neg (not_lt.mpr h1)]
    rfl
  · intro q h1
    simp only [parse_date]
    rw [if_pos h1]
    rfl

/-- C2 witness: one instance of each regime. -/
theorem c2_witness :
    ((1000000000 : ℚ) < 2000000000 ∧ (2000000000 : ℚ) ≤ 1000000000000 ∧
      parse_date (.num 2000000000) = utcDateOfSeconds 2000000000) ∧
    ((5 : ℚ) ≤ 1000000000 ∧ parse_date (.num 5) = utcDateOfMillis 5) ∧
    ((1000000000000 : ℚ) < 2000000000000000 ∧
      parse_date (.num 2000000000000000) = utcDateOfMillis 2000000000000000) :=
  ⟨⟨by decide, by decide, c2_epoch_scaling.1 2000000000 (by decide) (by decide)⟩,
   ⟨by decide, c2_epoch_scaling.2.1 5 (by decide)⟩,
   ⟨by decide, c2_epoch_scaling.2.2 2000000000000000 (by decide)⟩⟩

/-! ## C1: totality of the Field Normalizer -/

/-- Does `float()` succeed on this `get_any` result?  A string must
parse as a float literal; a number must fit a double (an integer at or
beyond the overflow boundary raises `OverflowError`). -/
def floatOkB : Option JVal → Bool
  | some (.str s) => (pyFloat s).isSome
  | some (.num q) => qabs q < ovfBound
  | some .null => false
  | none => true

/-- Does the cost coercion avoid raising on this record? -/
def costOkB (rec : RMap) : Bool :=
  match get_any (lowerKeys rec) costKeys with
  | some (.str s) => stripCost s = "" || (pyFloat (stripCost s)).isSome
  | some (.num q) => qabs q < ovfBound
  | _ => true

def latOkB (rec : RMap) : Bool := floatOkB (get_any (lowerKeys rec) latKeys)

def lngOkB (rec : RMap) : Bool := floatOkB (get_any (lowerKeys rec) lngKeys)

theorem costOf_isOk (m : RMap)
    (h : (match get_any m costKeys with
          | some (.str s) => stripCost s = "" || (pyFloat (stripCost s)).isSome
          | some (.num q) => qabs q < ovfBound
          | _ => true) = true) :
    ∃ x, costOf m = .ok x := by
  unfold costOf
  cases hg : get_any m costKeys with
  | none => exact ⟨_, rfl⟩
  | some v =>
    cases v with
    | num q =>
      rw [hg] at h
      refine ⟨.fin q, ?_⟩
      show (if ovfBound ≤ qabs q then (Except.error () : Except Unit PyF)
        else .ok (.fin q)) = .ok (.fin q)
      rw [if_neg (not_le.mpr (of_decide_eq_true h))]
    | null => exact ⟨_, rfl⟩
    | str s2 =>
      rw [hg] at h
      by_cases he : stripCost s2 = ""
      · exact ⟨.fin 0, by simp [he]⟩
      · simp only [he, decide_False, Bool.false_or] at h
        obtain ⟨f, hf⟩ := Option.isSome_iff_exists.mp h
        exact ⟨f, by simp [he, hf]⟩

theorem latOf_isOk (m : RMap) (h : floatOkB (get_any m latKeys) = true) :
    ∃ x, latOf m = .ok x := by
  unfold latOf
  cases hg : get_any m latKeys with
  | none => exact ⟨_, rfl⟩
  | some v =>
    rw [hg] at h
    cases v with
    | num q =>
      unfold floatOkB at h
      refine ⟨some (.fin q), ?_⟩
      show Except.map some (floatJV (.num q)) = .ok (some (.fin q))
      have h2 : floatJV (.num q) = .ok (.fin q) := by
        show (if ovfBound ≤ qabs q then (Except.error () : Except Unit PyF)
          else .ok (.fin q)) = .ok (.fin q)
        rw [if_neg (not_le.mpr (of_decide_eq_true h))]
      rw [h2]
      rfl
    | str s2 =>
      unfold floatOkB at h
      obtain ⟨f, hf⟩ := Option.isSome_iff_exists.mp h
      exact ⟨some f, by simp [floatJV, hf, Except.map]⟩
    | null => simp [floatOkB] at h

theorem lngOf_isOk (m : RMap) (h : floatOkB (get_any m lngKeys) = true) :
    ∃ x, lngOf m = .ok x := by
  unfold lngOf
  cases hg : get_any m lngKeys with
  | none => exact ⟨_, rfl⟩
  | some v =>
    rw [hg] at h
    cases v with
    | num q =>
      unfold floatOkB at h
      refine ⟨some (.fin q), ?_⟩
      show Except.map some (floatJV (.num q)) = .ok (some (.fin q))
      have h2 : floatJV (.num q) = .ok (.fin q) := by
        show (if ovfBound ≤ qabs q then (Except.error () : Except Unit PyF)
          else .ok (.fin q)) = .ok (.fin q)
        rw [if_neg (not_le.mpr (of_decide_eq_true h))]
      rw [h2]
      rfl
    | str s2 =>
      unfold floatOkB at h
      obtain ⟨f, hf⟩ := Option.isSome_iff_exists.mp h
      exact ⟨some f, by simp [floatJV, hf, Except.map]⟩
    | null => simp [floatOkB] at h

/-- C1 counterexample: `{"cost": "-"}` strips to the nonempty string
`"-"`, on which `float()` raises `ValueError`; and `{"lat": 10^400}`
makes `float(lat)` raise `OverflowError` (an integer outside double
range).  Either way `_normalise_record` raises rather than degrading to
a default. -/
theorem c1_counterexample :
    _normalise_record [("cost", JVal.str "-")] = .error () ∧
    _normalise_record [("lat", JVal.num (Rat.divInt (Int.ofNat (10 ^ 400)) 1))] =
      .error () := ⟨by decide, by decide⟩

/-- C1 (amended): `_normalise_record` returns a record — degrading bad
dates, unknown sector/jurisdiction keywords and absent fields to their
documented defaults — provided the three `float()` coercions succeed:
the stripped cost string (when nonempty) parses as a float, a numeric
cost fits a double, and the lat/lng values (when string-valued) parse
as floats, or (when numeric) fit a double.  Outside those conditions it
raises (`ValueError` on a bad literal, `OverflowError` on an integer
outside double range). -/
theorem c1_normalise_total (rec : RMap) (h1 : costOkB rec = true) (h2 : latOkB rec = true)
    (h3 : lngOkB rec = true) : ∃ r, _normalise_record rec = .ok r := by
  obtain ⟨c, hc⟩ := costOf_isOk (lowerKeys rec) (by unfold costOkB at h1; exact h1)
  obtain ⟨la, hla⟩ := latOf_isOk (lowerKeys rec) (by unfold latOkB at h2; exact h2)
  obtain ⟨lb, hlb⟩ := lngOf_isOk (lowerKeys rec) (by unfold lngOkB at h3; exact h3)
  refine ⟨{ name := pyStrJV (orElseJV (get_any (lowerKeys rec) nameKeys) (.str "Untitled project")),
            sector := sectorOf (lowerKeys rec), jurisdiction := jurisdictionOf (lowerKeys rec),
            company := pyStrJV (orElseJV (get_any (lowerKeys rec) companyKeys) (.str "")),
            status := pyStrJV (orElseJV (get_any (lowerKeys rec) statusKeys) (.str "")),
            cost := c, start := parse_date_o (get_any (lowerKeys rec) startKeys),
            endd := parse_date_o (get_any (lowerKeys rec) endKeys), lat := la, lng := lb }, ?_⟩
  simp only [_normalise_record, hc, hla, hlb]

/-- C1 witness: the spec's own normaliser test record (bad-date-free but
with a decorated cost string and numeric lat/lng). -/
theorem c1_witness :
    costOkB
      [("Project_Name", .str "Test Rail"), ("Category", .str "Rail Transport"),
       ("total_cost", .str "€123.4m"), ("Start_Date", .str "2027-06-01"),
       ("Latitude", .num (Rat.divInt 533 10)), ("Longitude", .num (Rat.divInt (-31) 5))] = true ∧
    latOkB
      [("Project_Name", .str "Test Rail"), ("Category", .str "Rail Transport"),
       ("total_cost", .str "€123.4m"), ("Start_Date", .str "2027-06-01"),
       ("Latitude", .num (Rat.divInt 533 10)), ("Longitude", .num (Rat.divInt (-31) 5))] = true ∧
    lngOkB
      [("Project_Name", .str "Test Rail"), ("Category", .str "Rail Transport"),
       ("total_cost", .str "€123.4m"), ("Start_Date", .str "2027-06-01"),
       ("Latitude", .num (Rat.divInt 533 10)), ("Longitude", .num (Rat.divInt (-31) 5))] = true ∧
    ∃ r, _normalise_record
      [("Project_Name", .str "Test Rail"), ("Category", .str "Rail Transport"),
       ("total_cost", .str "€123.4m"), ("Start_Date", .str "2027-06-01"),
       ("Latitude", .num (Rat.divInt 533 10)), ("Longitude", .num (Rat.divInt (-31) 5))] = .ok r :=
  ⟨by decide, by decide, by decide,
   c1_normalise_total _ (by decide) (by decide) (by decide)⟩

/-! ## C5: cost coercion -/

/-- The character class `re.sub(r"[^0-9.\-]", "", ·)` keeps. -/
def classB (c : Char) : Bool := c.isDigit || c = '.' || c = '-'

theorem digit_toLower (c : Char) (h : c.isDigit = true) : c.toLower = c := by
  simp only [Char.isDigit, Bool.and_eq_true, decide_eq_true_eq] at h
  unfold Char.toLower
  rw [if_neg]
  rintro ⟨h1, h2⟩
  have hv : c.toNat ≤ 57 := by
    have := h.2
    simpa [Char.toNat] using this
  omega

theorem class_toLower (c : Char) (h : classB c = true) : c.toLower = c := by
  simp only [classB, Bool.or_eq_true, decide_eq_true_eq] at h
  rcases h with (h2 | rfl) | rfl
  · exact digit_toLower c h2
  · decide
  · decide

theorem class_not_ws (c : Char) (h : classB c = true) : isPyWs c = false := by
  by_contra hw
  simp only [Bool.not_eq_false] at hw
  simp only [isPyWs, Bool.or_eq_true, decide_eq_true_eq] at hw
  rcases hw with ((((rfl | rfl) | rfl) | rfl) | rfl) | rfl <;> exact absurd h (by decide)

theorem stripCost_mem (s : String) (c : Char) (hc : c ∈ (stripCost s).data) :
    classB c = true := by
  have : (stripCost s).data = s.data.filter (fun c => c.isDigit || c = '.' || c = '-') := rfl
  rw [this] at hc
  exact (List.mem_filter.mp hc).2

theorem class_map_ne (l2 : List Char) (hc : ∀ c ∈ l2, classB c = true) (d : Char)
    (hd : classB d = false) (rest : List Char) : l2.map Char.toLower ≠ d :: rest := by
  intro he
  cases l2 with
  | nil => simp at he
  | cons a t =>
    simp only [List.map_cons, List.cons.injEq] at he
    have ha := hc a (by simp)
    rw [class_toLower a ha] at he
    rw [he.1] at ha
    rw [ha] at hd
    cases hd

theorem satPyF_ne_nan (b : Bool) (v : ℚ) : satPyF b v ≠ .nan := by
  unfold satPyF
  split
  · exact fun h => PyF.noConfusion h
  · exact fun h => PyF.noConfusion h

/-- A `float()` parse of a stripped cost string is never NaN: the
stripped alphabet has no letters, so the `inf`/`nan` keyword branches
cannot fire; every mantissa/exponent success is `.fin`, or `.inf` by
overflow saturation. -/
theorem pyFloat_stripCost_notNan (s : String) (f : PyF)
    (h : pyFloat (stripCost s) = some f) : f ≠ .nan := by
  have hcls := stripCost_mem s
  have hstrip : stripEnds isPyWs (stripCost s).data = (stripCost s).data :=
    stripEnds_eq_self _ _
      (fun c hc => class_not_ws c (hcls c (List.mem_of_mem_head? (by rw [hc]; simp))))
      (fun c hc => class_not_ws c (hcls c (List.mem_of_mem_getLast? (by rw [hc]; simp))))
  unfold pyFloat at h
  rw [hstrip] at h
  set l := (stripCost s).data with hl
  have htail : ∀ c ∈ l.tail, classB c = true := by
    intro c hc
    exact hcls c (List.mem_of_mem_tail hc)
  set sl : Bool × List Char :=
    (if l.head? = some '+' then (false, l.tail)
     else if l.head? = some '-' then (true, l.tail)
     else (false, l)) with hsl
  have hsl2 : ∀ c ∈ sl.2, classB c = true := by
    rw [hsl]
    split_ifs <;> intro c hc
    · exact htail c hc
    · exact htail c hc
    · exact hcls c hc
  rw [if_neg ?hinf] at h
  case hinf =>
    rintro (he | he)
    · exact class_map_ne sl.2 hsl2 'i' (by decide) _ he
    · exact class_map_ne sl.2 hsl2 'i' (by decide) _ he
  rw [if_neg ?hnan] at h
  case hnan =>
    intro he
    exact class_map_ne sl.2 hsl2 'n' (by decide) _ he
  cases hm : mantissa (sl.2.map Char.toLower) with
  | none =>
    simp only [hm] at h
    cases h
  | some mf =>
    obtain ⟨m, fl, r⟩ := mf
    simp only [hm] at h
    cases he : expPart r with
    | some er =>
      obtain ⟨e, r2⟩ := er
      simp only [he] at h
      by_cases hr2 : r2 = []
      · rw [if_pos hr2] at h
        rw [← Option.some_inj.mp h]
        exact satPyF_ne_nan _ _
      · rw [if_neg hr2] at h
        cases h
    | none =>
      simp only [he] at h
      by_cases hr : r = []
      · rw [if_pos hr] at h
        rw [← Option.some_inj.mp h]
        exact satPyF_ne_nan _ _
      · rw [if_neg hr] at h
        cases h

/-- The claim's cost rule: `None`/absent → 0, numbers pass through when
they fit a double (an overflowing integer raises, so has no value),
strings are stripped to `[0-9.\-]` and parsed, empty remnant → 0; a
nonempty remnant that is not a float literal has no value (the raise),
and one that overflows saturates to `±inf` inside `pyFloat`. -/
def specCost : Option JVal → Option PyF
  | none => some (.fin 0)
  | some .null => some (.fin 0)
  | some (.num q) => if ovfBound ≤ qabs q then none else some (.fin q)
  | some (.str s) =>
    if stripCost s = "" then some (.fin 0)
    else pyFloat (stripCost s)

/-- C5 counterexample: a negative numeric cost passes through unchanged,
so the normalized `cost` is not non-negative; and a cost string whose
stripped literal overflows binary64 yields an infinite — non-finite —
`cost` (CPython `float(str)` saturates to `inf`). -/
theorem c5_counterexample :
    (_normalise_record [("cost", JVal.num (-5))] =
      .ok { name := "Untitled project", sector := "Other", jurisdiction := "Ireland",
            company := "", status := "", cost := .fin (-5), start := none, endd := none,
            lat := none, lng := none } ∧
    ¬(0 ≤ (-5 : ℚ))) ∧
    _normalise_record [("cost", JVal.str ⟨List.replicate 400 '1'⟩)] =
      .ok { name := "Untitled project", sector := "Other", jurisdiction := "Ireland",
            company := "", status := "", cost := .inf false, start := none, endd := none,
            lat := none, lng := none } :=
  ⟨⟨by decide, by decide⟩, by decide⟩

/-- C5 (amended): whenever `_normalise_record` returns a record, its
`cost` equals the documented strip-and-parse semantics — string inputs
stripped of every character outside `[0-9.\-]` and parsed, an empty
remnant or non-numeric type yielding 0, in-range numeric inputs passing
through — and is never NaN; but it is neither necessarily non-negative
(negative values pass through) nor necessarily finite (a stripped
literal overflowing binary64 saturates to `±inf`). -/
theorem c5_cost_semantics (rec : RMap) (r : NormRec)
    (h : _normalise_record rec = .ok r) :
    specCost (get_any (lowerKeys rec) costKeys) = some r.cost ∧ r.cost ≠ .nan := by
  have hco : costOf (lowerKeys rec) = .ok r.cost := by
    simp only [_normalise_record] at h
    cases hc : costOf (lowerKeys rec) with
    | error e => rw [hc] at h; cases h
    | ok c =>
      rw [hc] at h
      cases hla : latOf (lowerKeys rec) with
      | error e => rw [hla] at h; cases h
      | ok la =>
        rw [hla] at h
        cases hlb : lngOf (lowerKeys rec) with
        | error e => rw [hlb] at h; cases h
        | ok lb =>
          rw [hlb] at h
          simp only [Except.ok.injEq] at h
          rw [← h]
  unfold costOf at hco
  cases hg : get_any (lowerKeys rec) costKeys with
  | none =>
    simp only [hg, Except.ok.injEq] at hco
    simp only [specCost]
    rw [← hco]
    exact ⟨rfl, fun hh => PyF.noConfusion hh⟩
  | some v =>
    cases v with
    | num q =>
      simp only [hg] at hco
      simp only [specCost]
      by_cases hb : ovfBound ≤ qabs q
      · rw [if_pos hb] at hco
        cases hco
      · rw [if_neg hb] at hco
        simp only [Except.ok.injEq] at hco
        rw [if_neg hb, ← hco]
        exact ⟨rfl, fun hh => PyF.noConfusion hh⟩
    | null =>
      simp only [hg, Except.ok.injEq] at hco
      simp only [specCost]
      rw [← hco]
      exact ⟨rfl, fun hh => PyF.noConfusion hh⟩
    | str s2 =>
      simp only [hg] at hco
      simp only [specCost]
      by_cases he : stripCost s2 = ""
      · rw [if_pos he] at hco
        simp only [Except.ok.injEq] at hco
        rw [if_pos he, ← hco]
        exact ⟨rfl, fun hh => PyF.noConfusion hh⟩
      · rw [if_neg he] at hco
        cases hp : pyFloat (stripCost s2) with
        | none => rw [hp] at hco; cases hco
        | some f =>
          rw [hp] at hco
          simp only [Except.ok.injEq] at hco
          rw [if_neg he, hco]
          exact ⟨rfl, by rw [← hco]; exact pyFloat_stripCost_notNan s2 f hp⟩

/-- C5 witness: the decorated `"€123.4m"` cost string. -/
theorem c5_witness :
    _normalise_record [("total_cost", JVal.str "€123.4m")] =
      .ok { name := "Untitled project", sector := "Other", jurisdiction := "Ireland",
            company := "", status := "", cost := .fin (Rat.divInt 617 5), start := none,
            endd := none, lat := none, lng := none } ∧
    specCost (get_any (lowerKeys [("total_cost", JVal.str "€123.4m")]) costKeys) =
      some (PyF.fin (Rat.divInt 617 5)) ∧ (PyF.fin (Rat.divInt 617 5) : PyF) ≠ .nan :=
  ⟨by decide,
   c5_cost_semantics [("total_cost", JVal.str "€123.4m")]
     { name := "Untitled project", sector := "Other", jurisdiction := "Ireland",
       company := "", status := "", cost := .fin (Rat.divInt 617 5), start := none,
       endd := none, lat := none, lng := none } (by decide)⟩

/-! ## C6 and C10: closed enumerations -/

/-- Full inversion of a successful `_normalise_record`. -/
theorem normalise_ok_inv (rec : RMap) (r : NormRec) (h : _normalise_record rec = .ok r) :
    r = { name := pyStrJV (orElseJV (get_any (lowerKeys rec) nameKeys) (.str "Untitled project")),
          sector := sectorOf (lowerKeys rec),
          jurisdiction := jurisdictionOf (lowerKeys rec),
          company := pyStrJV (orElseJV (get_any (lowerKeys rec) companyKeys) (.str "")),
          status := pyStrJV (orElseJV (get_any (lowerKeys rec) statusKeys) (.str "")),
          cost := r.cost, start := parse_date_o (get_any (lowerKeys rec) startKeys),
          endd := parse_date_o (get_any (lowerKeys rec) endKeys),
          lat := r.lat, lng := r.lng } := by
  simp only [_normalise_record] at h
  cases hc : costOf (lowerKeys rec) with
  | error e => rw [hc] at h; cases h
  | ok c =>
    rw [hc] at h
    cases hla : latOf (lowerKeys rec) with
    | error e => rw [hla] at h; cases h
    | ok la =>
      rw [hla] at h
      cases hlb : lngOf (lowerKeys rec) with
      | error e => rw [hlb] at h; cases h
      | ok lb =>
        rw [hlb] at h
        simp only [Except.ok.injEq] at h
        rw [← h]

/-- C6: the normalized `sector` is always one of the four sector values
and `jurisdiction` one of the closed jurisdiction values — never null,
never a raw string; the sector is chosen by keyword-set substring
matching in transport → energy → water priority order with `Other` on no
match, and the jurisdiction defaults to `Ireland` whenever `"northern"`
does not occur. -/
theorem c6_closed_enums (rec : RMap) (r : NormRec) (h : _normalise_record rec = .ok r) :
    (r.sector = "Transport" ∨ r.sector = "Energy" ∨ r.sector = "Water" ∨ r.sector = "Other") ∧
    (r.jurisdiction = "Ireland" ∨ r.jurisdiction = "Northern Ireland" ∨
      r.jurisdiction = "Cross-border") ∧
    (["transport", "rail", "road", "bus"].any
        (fun x => strHas x (sectorRawOf (lowerKeys rec))) = true → r.sector = "Transport") ∧
    (["transport", "rail", "road", "bus"].any
        (fun x => strHas x (sectorRawOf (lowerKeys rec))) = false →
      ["energy", "grid", "renew"].any
        (fun x => strHas x (sectorRawOf (lowerKeys rec))) = true → r.sector = "Energy") ∧
    (["transport", "rail", "road", "bus"].any
        (fun x => strHas x (sectorRawOf (lowerKeys rec))) = false →
      ["energy", "grid", "renew"].any
        (fun x => strHas x (sectorRawOf (lowerKeys rec))) = false →
      ["water", "wastewater", "drainage", "uisce"].any
        (fun x => strHas x (sectorRawOf (lowerKeys rec))) = true → r.sector = "Water") ∧
    (["transport", "rail", "road", "bus"].any
        (fun x => strHas x (sectorRawOf (lowerKeys rec))) = false →
      ["energy", "grid", "renew"].any
        (fun x => strHas x (sectorRawOf (lowerKeys rec))) = false →
      ["water", "wastewater", "drainage", "uisce"].any
        (fun x => strHas x (sectorRawOf (lowerKeys rec))) = false → r.sector = "Other") ∧
    (strHas "northern" (jurisRawOf (lowerKeys rec)) = true →
      r.jurisdiction = "Northern Ireland") ∧
    (strHas "northern" (jurisRawOf (lowerKeys rec)) = false → r.jurisdiction = "Ireland") := by
  have hs : r.sector = sectorOf (lowerKeys rec) := by rw [normalise_ok_inv rec r h]
  have hj : r.jurisdiction = jurisdictionOf (lowerKeys rec) := by rw [normalise_ok_inv rec r h]
  rw [hs, hj]
  refine ⟨?_, ?_, ?_, ?_, ?_, ?_, ?_, ?_⟩
  · unfold sectorOf
    split_ifs <;> simp
  · unfold jurisdictionOf
    split_ifs <;> simp
  · intro h1
    unfold sectorOf
    rw [if_pos h1]
  · intro h1 h2
    unfold sectorOf
    rw [if_neg (by simp [h1]), if_pos h2]
  · intro h1 h2 h3
    unfold sectorOf
    rw [if_neg (by simp [h1]), if_neg (by simp [h2]), if_pos h3]
  · intro h1 h2 h3
    unfold sectorOf
    rw [if_neg (by simp [h1]), if_neg (by simp [h2]), if_neg (by simp [h3])]
  · intro h1
    unfold jurisdictionOf
    rw [if_pos h1]
  · intro h1
    unfold jurisdictionOf
    rw [if_neg (by simp [h1])]
    split_ifs <;> rfl

/-- C6 witness: the spec's classification example. -/
theorem c6_witness :
    (∃ _hx : _normalise_record [("Category", .str "Rail Transport"), ("Region", .str "Republic of Ireland")] =
      .ok { name := "Untitled project", sector := "Transport", jurisdiction := "Ireland",
            company := "", status := "", cost := .fin 0, start := none, endd := none,
            lat := none, lng := none },
      ({ name := "Untitled project", sector := "Transport", jurisdiction := "Ireland",
         company := "", status := "", cost := .fin 0, start := none, endd := none,
         lat := none, lng := none } : NormRec).sector = "Transport" ∨
      ({ name := "Untitled project", sector := "Transport", jurisdiction := "Ireland",
         company := "", status := "", cost := .fin 0, start := none, endd := none,
         lat := none, lng := none } : NormRec).sector = "Energy" ∨
      ({ name := "Untitled project", sector := "Transport", jurisdiction := "Ireland",
         company := "", status := "", cost := .fin 0, start := none, endd := none,
         lat := none, lng := none } : NormRec).sector = "Water" ∨
      ({ name := "Untitled project", sector := "Transport", jurisdiction := "Ireland",
         company := "", status := "", cost := .fin 0, start := none, endd := none,
         lat := none, lng := none } : NormRec).sector = "Other") :=
  ⟨by decide,
   (c6_closed_enums [("Category", .str "Rail Transport"), ("Region", .str "Republic of Ireland")]
     { name := "Untitled project", sector := "Transport", jurisdiction := "Ireland",
       company := "", status := "", cost := .fin 0, start := none, endd := none,
       lat := none, lng := none } (by decide)).1⟩

/-- Inversion of a successful, non-dropped `_feature_to_project`. -/
theorem feature_ok_inv (f : Feature) (p : Proj) (h : _feature_to_project f = .ok (some p)) :
    ∃ n cs, _normalise_record f.props = .ok n ∧ p = mkProj n f.props cs := by
  unfold _feature_to_project at h
  cases hn : _normalise_record f.props with
  | error e => rw [hn] at h; cases h
  | ok n =>
    simp only [hn] at h
    cases hg : resolveGeom (geomEff f.geom) with
    | error e => rw [hg] at h; cases h
    | ok c0 =>
      simp only [hg] at h
      cases hco : coordsOf n c0 with
      | none => rw [hco] at h; cases h
      | some cs =>
        rw [hco] at h
        simp only [Except.ok.injEq, Option.some.injEq] at h
        exact ⟨n, cs, rfl, h.symm⟩

/-- C10: normalization only ever produces `"Ireland"` or
`"Northern Ireland"` — `"Cross-border"` is never produced, so no record
arriving through the Feature Adapter is classified Cross-border. -/
theorem c10_never_crossborder :
    (∀ (rec : RMap) (r : NormRec), _normalise_record rec = .ok r →
      (r.jurisdiction = "Ireland" ∨ r.jurisdiction = "Northern Ireland") ∧
      r.jurisdiction ≠ "Cross-border") ∧
    (∀ (f : Feature) (p : Proj), _feature_to_project f = .ok (some p) →
      p.jurisdiction ≠ "Cross-border") := by
  have key : ∀ (rec : RMap) (r : NormRec), _normalise_record rec = .ok r →
      (r.jurisdiction = "Ireland" ∨ r.jurisdiction = "Northern Ireland") ∧
      r.jurisdiction ≠ "Cross-border" := by
    intro rec r h
    have hj : r.jurisdiction = jurisdictionOf (lowerKeys rec) := by
      rw [normalise_ok_inv rec r h]
    rw [hj]
    unfold jurisdictionOf
    split_ifs <;> exact ⟨by simp, by decide⟩
  refine ⟨key, ?_⟩
  intro f p h
  obtain ⟨n, cs, hn, hp⟩ := feature_ok_inv f p h
  have : p.jurisdiction = n.jurisdiction := by rw [hp]; rfl
  rw [this]
  exact (key f.props n hn).2

/-- C10 witness: a Cross-border-looking raw value still normalizes to
Ireland. -/
theorem c10_witness :
    _normalise_record [("jurisdiction", .str "Cross-border")] =
      .ok { name := "Untitled project", sector := "Other", jurisdiction := "Ireland",
            company := "", status := "", cost := .fin 0, start := none, endd := none,
            lat := none, lng := none } ∧
    (({ name := "Untitled project", sector := "Other", jurisdiction := "Ireland",
        company := "", status := "", cost := .fin 0, start := none, endd := none,
        lat := none, lng := none } : NormRec).jurisdiction = "Ireland" ∨
     ({ name := "Untitled project", sector := "Other", jurisdiction := "Ireland",
        company := "", status := "", cost := .fin 0, start := none, endd := none,
        lat := none, lng := none } : NormRec).jurisdiction = "Northern Ireland") :=
  ⟨by decide,
   (c10_never_crossborder.1 [("jurisdiction", .str "Cross-border")]
     { name := "Untitled project", sector := "Other", jurisdiction := "Ireland",
       company := "", status := "", cost := .fin 0, start := none, endd := none,
       lat := none, lng := none } (by decide)).1⟩

/-! ## C7: the Collection Loader -/

theorem isFC_true_inv (kvs : JObj) (h : isFC (J.obj kvs) = true) :
    jLook kvs "type" = some (J.str "FeatureCollection") := by
  simp only [isFC] at h
  cases hT : jLook kvs "type" with
  | none => simp only [hT] at h; cases h
  | some t =>
    cases t with
    | str t2 =>
      simp only [hT, decide_eq_true_eq] at h
      rw [h]
    | num q => simp only [hT] at h; cases h
    | bool b => simp only [hT] at h; cases h
    | null => simp only [hT] at h; cases h
    | arr xs => simp only [hT] at h; cases h
    | obj o => simp only [hT] at h; cases h

/-- C7: a response body that is not a dict with
`type == "FeatureCollection"` raises the validation error (never a
silent `[]`); otherwise the Feature Adapter runs over every element of
`features` (defaulting to the empty list when the key is absent),
keeping exactly the non-absent results in encounter order. -/
theorem c7_load_geojson :
    (∀ body : J, isFC body = false → load_geojson body = .error ()) ∧
    (∀ kvs : JObj, isFC (J.obj kvs) = true → jLook kvs "features" = none →
      load_geojson (J.obj kvs) = .ok []) ∧
    (∀ (kvs : JObj) (xs : JArr) (res : List Proj), isFC (J.obj kvs) = true →
      jLook kvs "features" = some (J.arr xs) → collectProjects xs = .ok res →
      load_geojson (J.obj kvs) = .ok res) ∧
    collectProjects .nil = .ok [] ∧
    (∀ (f : J) (fs : JArr) (p : Option Proj) (rest : List Proj),
      adaptJ f = .ok p → collectProjects fs = .ok rest →
      collectProjects (.cons f fs) =
        .ok (match p with | some pr => pr :: rest | none => rest)) := by
  refine ⟨?_, ?_, ?_, rfl, ?_⟩
  · intro body h
    cases body with
    | str s => rfl
    | num q => rfl
    | bool b => rfl
    | null => rfl
    | arr xs => rfl
    | obj kvs =>
      simp only [isFC] at h
      simp only [load_geojson]
      cases hT : jLook kvs "type" with
      | none => simp only [hT]
      | some t =>
        cases t with
        | str t2 =>
          simp only [hT, decide_eq_true_eq] at h
          simp only [hT]
          rw [if_neg (of_decide_eq_false h)]
        | num q => simp only [hT]
        | bool b => simp only [hT]
        | null => simp only [hT]
        | arr xs => simp only [hT]
        | obj o => simp only [hT]
  · intro kvs h hF
    have hT := isFC_true_inv kvs h
    simp only [load_geojson, hT, hF]
    rw [if_pos trivial]
    rfl
  · intro kvs xs res h hF hC
    have hT := isFC_true_inv kvs h
    simp only [load_geojson, hT, hF]
    rw [if_pos trivial]
    cases xs with
    | nil =>
      have : res = [] := by
        have : (Except.ok [] : Except Unit (List Proj)) = .ok res := hC
        simpa using this.symm
      rw [this]
      rw [if_neg (by simp [truthyJ])]
      rfl
    | cons f fs =>
      rw [if_pos (by simp [truthyJ])]
      exact hC
  · intro f fs p rest h1 h2
    unfold collectProjects
    simp only [h1, h2]

/-- C7 witness: a `{"type": "Feature"}` body raises; a singleton
FeatureCollection whose feature resolves by lat/lng loads it; one whose
feature has null geometry and no coordinates drops it. -/
theorem c7_witness :
    (isFC (jobj [("type", J.str "Feature")]) = false ∧
      load_geojson (jobj [("type", J.str "Feature")]) = .error ()) ∧
    load_geojson (jobj [("type", J.str "FeatureCollection"),
      ("features", jarr [jobj [("properties",
        jobj [("id", J.str "p1"), ("lat", J.num 1), ("lng", J.num 2)])]])]) =
      .ok [{ id := "p1", name := "Untitled project", sector := "Other",
             jurisdiction := "Ireland", company := "", status := "", cost := .fin 0,
             start := none, endd := none,
             coords := [.fv (.fin 2), .fv (.fin 1)], url := .str "" }] :=
  ⟨⟨by decide, c7_load_geojson.1 (jobj [("type", J.str "Feature")]) (by decide)⟩,
   c7_load_geojson.2.2.1
     (joOfList [("type", J.str "FeatureCollection"),
       ("features", jarr [jobj [("properties",
         jobj [("id", J.str "p1"), ("lat", J.num 1), ("lng", J.num 2)])]])])
     (jaOfList [jobj [("properties",
       jobj [("id", J.str "p1"), ("lat", J.num 1), ("lng", J.num 2)])]])
     [{ id := "p1", name := "Untitled project", sector := "Other",
        jurisdiction := "Ireland", company := "", status := "", cost := .fin 0,
        start := none, endd := none,
        coords := [.fv (.fin 2), .fv (.fin 1)], url := .str "" }]
     (by decide) (by decide) (by decide)⟩

/-! ## C3: geometry fall-through and the lat/lng fallback -/

end AIP
